import Mathlib

/-! Shallow embedding of the droantree/cancersimulation sources (misc.py,
gompertz.py, simpleCancerSim.py) together with proofs about them.

Machine floats are modelled by real numbers.  An arithmetic operation whose
IEEE evaluation would leave the finite reals (logarithm of a non-positive
number, square root of a negative number, division by zero) is modelled
through Option, with none standing for the NaN or infinite value that numpy
silently returns (numpy emits a RuntimeWarning and keeps going; it does not
raise an exception).  Pseudo-randomness is modelled by passing the uniform
draw consumed by a call as an explicit argument. -/

/-- Model of np.log: none when the argument is non-positive (numpy would
return NaN or -inf). -/
noncomputable def npLog (x : ℝ) : Option ℝ :=
  if 0 < x then some (Real.log x) else none

/-- Model of np.sqrt: none for negative arguments (numpy would return NaN). -/
noncomputable def npSqrt (x : ℝ) : Option ℝ :=
  if 0 ≤ x then some (Real.sqrt x) else none

/-- Model of float division: none when the divisor is zero (numpy would
return NaN or an infinity). -/
noncomputable def npDiv (x y : ℝ) : Option ℝ :=
  if y = 0 then none else some (x / y)

/-- The dictionary with keys "b" and "eta" returned by gompertzParams. -/
structure GompertzParams where
  b : ℝ
  eta : ℝ

namespace misc

/-- misc.py, gompertzParams: derives the Gompertz parameters (b, eta) from a
median M and the probability ProbHalfM of the event before half the median:
L = log(1-P)/log(0.5); K = (1 + sqrt(4 L^2 - 4 L + 1)) / (2 L);
b = 2 log(K) / M; eta = log(1-P) / (1 - exp(b M / 2)).
The function performs no input validation. -/
noncomputable def gompertzParams (M ProbHalfM : ℝ) : Option GompertzParams :=
  (npLog (1 - ProbHalfM)).bind fun logNum =>
  (npLog 0.5).bind fun logDen =>
  (npDiv logNum logDen).bind fun L =>
  (npSqrt (4 * L ^ 2 - 4 * L + 1)).bind fun sq =>
  (npDiv (1 + sq) (2 * L)).bind fun K =>
  (npLog K).bind fun logK =>
  (npDiv (2 * logK) M).bind fun b =>
  (npDiv logNum (1 - Real.exp (b * M / 2))).bind fun eta =>
  some { b := b, eta := eta }

/-- misc.py, CDFGompertz: F(x) = 1 - exp(-eta * (exp(b*x) - 1)). -/
noncomputable def CDFGompertz (gParams : GompertzParams) (x : ℝ) : ℝ :=
  1 - Real.exp (-gParams.eta * (Real.exp (gParams.b * x) - 1))

/-- misc.py, ProbDieBeforeT2GivenSurviveUntilTime1: the conditional hazard
(F(time2) - F(time1)) / (1 - F(time1)), computed as a bare float division
with no boundary handling. -/
noncomputable def ProbDieBeforeT2GivenSurviveUntilTime1 (time1 time2 : ℝ)
    (gParams : GompertzParams) : Option ℝ :=
  npDiv (CDFGompertz gParams time2 - CDFGompertz gParams time1)
    (1 - CDFGompertz gParams time1)

/-- The intermediate value L = log(1 - ProbHalfM) / log(0.5) of
gompertzParams. -/
noncomputable def Lval (ProbHalfM : ℝ) : ℝ :=
  Real.log (1 - ProbHalfM) / Real.log 0.5

end misc

namespace gompertz

/-- Python caret applied to floats.  In gompertz.py the expression
4.0*L^2 - 4.0*L + 1.0 parses as (4.0*L) ^ (3.0 - 4.0*L), because ^ is the
bitwise-xor operator and binds more loosely than * and -; bitwise xor of
numpy floats raises TypeError, so the operation never yields a value. -/
def floatXor (_x _y : ℝ) : Option ℝ := none

/-- gompertz.py, gompertzParams: textually like misc.gompertzParams except
that the discriminant is written 4.0*L^2 - 4.0*L + 1.0, which Python parses
as the float bitwise-xor (4.0*L) ^ (3.0 - 4.0*L): a TypeError. -/
noncomputable def gompertzParams (M ProbHalfM : ℝ) : Option GompertzParams :=
  (npLog (1 - ProbHalfM)).bind fun logNum =>
  (npLog 0.5).bind fun logDen =>
  (npDiv logNum logDen).bind fun L =>
  (floatXor (4 * L) (3 - 4 * L)).bind fun disc =>
  (npSqrt disc).bind fun sq =>
  (npDiv (1 + sq) (2 * L)).bind fun K =>
  (npLog K).bind fun logK =>
  (npDiv (2 * logK) M).bind fun b =>
  (npDiv logNum (1 - Real.exp (b * M / 2))).bind fun eta =>
  some { b := b, eta := eta }

end gompertz

namespace simpleCancerSim

/-- The status strings "NT", "SC", "FL" of simpleCancerSim.py as a closed
enumeration. -/
inductive Status where
  | STATUS_NOT_TREATED : Status
  | STATUS_TREATMENT_SUCCEEDED : Status
  | STATUS_TREATMENT_FAILED : Status
deriving DecidableEq

/-- simpleCancerSim.py, class ApptSchedule.  The daily capacity
SLOTS_PER_DAY is a module-level constant in the source; it is passed
explicitly here. -/
structure ApptSchedule where
  nextApptDay : ℤ
  apptsRemainingNextApptDay : ℤ
deriving DecidableEq

/-- ApptSchedule.__init__: nextApptDay = 1, full capacity remaining. -/
def ApptSchedule.init (SLOTS_PER_DAY : ℤ) : ApptSchedule :=
  { nextApptDay := 1, apptsRemainingNextApptDay := SLOTS_PER_DAY }

/-- ApptSchedule.resetNextApptDayToDay. -/
def ApptSchedule.resetNextApptDayToDay (SLOTS_PER_DAY : ℤ) (_s : ApptSchedule)
    (day : ℤ) : ApptSchedule :=
  { nextApptDay := day, apptsRemainingNextApptDay := SLOTS_PER_DAY }

/-- ApptSchedule.decrementSlotsAvailableNextApptDay. -/
def ApptSchedule.decrementSlotsAvailableNextApptDay (SLOTS_PER_DAY : ℤ)
    (s : ApptSchedule) : ApptSchedule :=
  let s1 : ApptSchedule :=
    { s with apptsRemainingNextApptDay := s.apptsRemainingNextApptDay - 1 }
  if s1.apptsRemainingNextApptDay = 0 then
    s1.resetNextApptDayToDay SLOTS_PER_DAY (s1.nextApptDay + 1)
  else s1

/-- ApptSchedule.getNextApptSlot: returns the assigned day and the mutated
schedule. -/
def ApptSchedule.getNextApptSlot (SLOTS_PER_DAY : ℤ) (s : ApptSchedule)
    (today : ℤ) : ℤ × ApptSchedule :=
  let s1 := if today > s.nextApptDay then s.resetNextApptDayToDay SLOTS_PER_DAY today
            else s
  (s1.nextApptDay, s1.decrementSlotsAvailableNextApptDay SLOTS_PER_DAY)

/-- A sequence of getNextApptSlot calls: the list of assigned days and the
final schedule state. -/
def ApptSchedule.runSchedule (SLOTS_PER_DAY : ℤ) (s : ApptSchedule) :
    List ℤ → List ℤ × ApptSchedule
  | [] => ([], s)
  | today :: rest =>
    let r := s.getNextApptSlot SLOTS_PER_DAY today
    let rr := r.2.runSchedule SLOTS_PER_DAY rest
    (r.1 :: rr.1, rr.2)

/-- The schedule states reached immediately after each call of a sequence of
getNextApptSlot calls. -/
def ApptSchedule.runStates (SLOTS_PER_DAY : ℤ) (s : ApptSchedule) :
    List ℤ → List ApptSchedule
  | [] => []
  | today :: rest =>
    let s1 := (s.getNextApptSlot SLOTS_PER_DAY today).2
    s1 :: s1.runStates SLOTS_PER_DAY rest

/-- simpleCancerSim.py, class Sufferer.  __init__ randomly samples the two
parameter dictionaries (MEDmort uniform on [60,700), PHALFmort = 0.02,
MEDnotice and PHALFnotice uniform); those construction-time draws are
abstracted by quantifying over the resulting record.  The shared
apptSchedule reference held by the object is threaded explicitly through
progressOneDay instead. -/
structure Sufferer where
  dayCancerStarted : ℤ
  appt : Option ℤ
  status : Status
  mortalityParams : GompertzParams
  noticingParams : GompertzParams

/-- Sufferer.cancerStage: days since the cancer started. -/
def Sufferer.cancerStage (s : Sufferer) (day : ℤ) : ℤ :=
  day - s.dayCancerStarted

/-- simpleCancerSim.py, pickRandomTF: compares a fresh uniform draw (passed
here as the explicit argument randomFrom0To1) against probOfTrue. -/
noncomputable def pickRandomTF (probOfTrue : ℝ) (randomFrom0To1 : ℝ) : Bool :=
  if randomFrom0To1 ≤ probOfTrue then true else false

/-- Sufferer.isNoticed.  NOTE: the source calls
gp.ProbEventBeforeT2GivenNoEventBeforeTime1, a name that misc.py (imported
as gp) does not define - its hazard function is named
ProbDieBeforeT2GivenSurviveUntilTime1, with the same parameter list - so
executing the source raises AttributeError here.  The call is modelled by
the evidently intended binding.  A NaN hazard (none) compares as false, as
the IEEE comparison in pickRandomTF would. -/
noncomputable def Sufferer.isNoticed (s : Sufferer) (cancerStageToday : ℤ)
    (u : ℝ) : Bool :=
  match misc.ProbDieBeforeT2GivenSurviveUntilTime1
      ((cancerStageToday - 1 : ℤ) : ℝ) ((cancerStageToday : ℤ) : ℝ)
      s.noticingParams with
  | none => false
  | some probNoticing => pickRandomTF probNoticing u

/-- Sufferer.isTreatmentSuccessful: one-shot Bernoulli draw with success
probability 1 - CDFmort(stage). -/
noncomputable def Sufferer.isTreatmentSuccessful (s : Sufferer)
    (cancerStageToday : ℤ) (u : ℝ) : Bool :=
  pickRandomTF (1 - misc.CDFGompertz s.mortalityParams (cancerStageToday : ℝ)) u

/-- Sufferer.isStatusSuccess. -/
def Sufferer.isStatusSuccess (s : Sufferer) : Bool :=
  if s.status = Status.STATUS_TREATMENT_SUCCEEDED then true else false

/-- Sufferer.isStatusFailed. -/
def Sufferer.isStatusFailed (s : Sufferer) : Bool :=
  if s.status = Status.STATUS_TREATMENT_FAILED then true else false

/-- Sufferer.hasBeenTreated: status differs from "NT". -/
def Sufferer.hasBeenTreated (s : Sufferer) : Bool :=
  if s.status = Status.STATUS_NOT_TREATED then false else true

/-- simpleCancerSim.py, class ModelResults.  The per-day deaths/cured count
arrays are modelled as the lists of days passed to addDeath/addCure, in call
order (the day-indexed count is the number of occurrences of the day). -/
structure ModelResults where
  deaths : List ℤ
  cured : List ℤ
  apptsWaitingDaysTotal : ℤ
  apptsTotal : ℤ
  treatmentStageTotalDays : ℤ

/-- ModelResults.__init__. -/
def ModelResults.init : ModelResults :=
  { deaths := [], cured := [], apptsWaitingDaysTotal := 0, apptsTotal := 0,
    treatmentStageTotalDays := 0 }

/-- ModelResults.addDeath. -/
def ModelResults.addDeath (r : ModelResults) (day : ℤ) : ModelResults :=
  { r with deaths := r.deaths ++ [day] }

/-- ModelResults.addApptSet. -/
def ModelResults.addApptSet (r : ModelResults) (daysToWait stageAtAppt : ℤ) :
    ModelResults :=
  { r with apptsWaitingDaysTotal := r.apptsWaitingDaysTotal + daysToWait,
           treatmentStageTotalDays := r.treatmentStageTotalDays + stageAtAppt,
           apptsTotal := r.apptsTotal + 1 }

/-- ModelResults.addCure. -/
def ModelResults.addCure (r : ModelResults) (day : ℤ) : ModelResults :=
  { r with cured := r.cured ++ [day] }

/-- Sufferer.progressOneDay.  The uniform draw consumed by whichever branch
draws (noticing or treatment outcome; at most one per call) is the explicit
argument u; the shared schedule and results objects are threaded. -/
noncomputable def Sufferer.progressOneDay (SLOTS_PER_DAY : ℤ) (s : Sufferer)
    (today : ℤ) (u : ℝ) (apptSchedule : ApptSchedule)
    (simResults : ModelResults) : Sufferer × ApptSchedule × ModelResults :=
  let cancerStageToday := s.cancerStage today
  match s.appt with
  | none =>
    if s.isNoticed cancerStageToday u then
      let r := apptSchedule.getNextApptSlot SLOTS_PER_DAY today
      let waitingDays := r.1 - today
      ({ s with appt := some r.1 }, r.2,
        simResults.addApptSet waitingDays (cancerStageToday + waitingDays))
    else (s, apptSchedule, simResults)
  | some appt =>
    if today < appt then (s, apptSchedule, simResults)
    else if s.isTreatmentSuccessful cancerStageToday u then
      ({ s with status := Status.STATUS_TREATMENT_SUCCEEDED }, apptSchedule,
        simResults)
    else
      ({ s with status := Status.STATUS_TREATMENT_FAILED }, apptSchedule,
        simResults)

/-- simpleCancerSim.py, class Model: the live sufferers, the global day and
the shared schedule.  The ModelResults collaborator is threaded through the
day step explicitly. -/
structure Model where
  sufferers : List Sufferer
  today : ℤ
  apptSchedule : ApptSchedule

noncomputable instance : DecidableEq GompertzParams :=
  Classical.decEq GompertzParams

noncomputable instance : DecidableEq Sufferer :=
  Classical.decEq Sufferer

/-- The for-loop body of Model.progressToNextDay: advances each sufferer in
order (threading the schedule and the results), collects the treated ones,
and reports each treated sufferer as a death or a cure with the current day
as the loop goes.  us i is the uniform draw consumed by the i-th advanced
sufferer.  Returns (advanced sufferers, sufferersTreated, schedule,
results). -/
noncomputable def progressLoop (SLOTS_PER_DAY : ℤ) (today : ℤ) :
    List Sufferer → (ℕ → ℝ) → ApptSchedule → ModelResults →
    List Sufferer × List Sufferer × ApptSchedule × ModelResults
  | [], _, sched, res => ([], [], sched, res)
  | suf :: rest, us, sched, res =>
    let r1 := suf.progressOneDay SLOTS_PER_DAY today (us 0) sched res
    let s1 := r1.1
    let res2 :=
      if s1.hasBeenTreated then
        if s1.isStatusFailed then (r1.2.2).addDeath today
        else (r1.2.2).addCure today
      else r1.2.2
    let rr := progressLoop SLOTS_PER_DAY today rest (fun i => us (i + 1)) r1.2.1 res2
    (s1 :: rr.1, (if s1.hasBeenTreated then [s1] else []) ++ rr.2.1,
      rr.2.2.1, rr.2.2.2)

/-- Model.progressToNextDay.  The Poisson draw of numberOfNewCancerStartsToday
and the construction-time sampling of the new Sufferer objects are abstracted
by passing the freshly created sufferers as newSufferers (createNewSuffers
appends them to the live list before the loop).  After the loop the treated
sufferers are removed one by one (Python list.remove), mirroring the
two-phase removal of the source. -/
noncomputable def Model.progressToNextDay (SLOTS_PER_DAY : ℤ) (m : Model)
    (newSufferers : List Sufferer) (us : ℕ → ℝ) (simResults : ModelResults) :
    Model × ModelResults :=
  let today := m.today + 1
  let allSufferers := m.sufferers ++ newSufferers
  let r := progressLoop SLOTS_PER_DAY today allSufferers us m.apptSchedule simResults
  let live := r.2.1.foldl (fun l suf => l.erase suf) r.1
  ({ sufferers := live, today := today, apptSchedule := r.2.2.1 }, r.2.2.2)

end simpleCancerSim

/-! Basic evaluation lemmas for the numpy operation models. -/

theorem npLog_of_pos {x : ℝ} (h : 0 < x) : npLog x = some (Real.log x) :=
  if_pos h

theorem npLog_of_nonpos {x : ℝ} (h : ¬ 0 < x) : npLog x = none :=
  if_neg h

theorem npSqrt_of_nonneg {x : ℝ} (h : 0 ≤ x) : npSqrt x = some (Real.sqrt x) :=
  if_pos h

theorem npDiv_of_ne {x y : ℝ} (h : y ≠ 0) : npDiv x y = some (x / y) :=
  if_neg h

theorem npDiv_by_zero (x : ℝ) : npDiv x 0 = none :=
  if_pos rfl

namespace misc

/-- Over the reals the Gompertz CDF is strictly below 1 for every parameter
pair and every argument, because exp is strictly positive. -/
theorem CDFGompertz_lt_one (g : GompertzParams) (x : ℝ) : CDFGompertz g x < 1 := by
  have h := Real.exp_pos (-g.eta * (Real.exp (g.b * x) - 1))
  unfold CDFGompertz
  linarith

theorem one_sub_CDFGompertz_ne_zero (g : GompertzParams) (x : ℝ) :
    1 - CDFGompertz g x ≠ 0 :=
  sub_ne_zero_of_ne (ne_of_gt (CDFGompertz_lt_one g x))

theorem log_half_neg : Real.log 0.5 < 0 :=
  Real.log_neg (by norm_num) (by norm_num)

theorem log_half_eq : Real.log 0.5 = -Real.log 2 := by
  rw [show (0.5 : ℝ) = 2⁻¹ by norm_num, Real.log_inv]

theorem sqrt2_div_two_pos : 0 < Real.sqrt 2 / 2 := by
  positivity

theorem sqrt2_div_two_lt_one : Real.sqrt 2 / 2 < 1 := by
  have h : Real.sqrt 2 < 2 := by
    rw [Real.sqrt_lt' (by norm_num : (0:ℝ) < 2)]
    norm_num
  linarith

theorem log_sqrt2_div_two : Real.log (Real.sqrt 2 / 2) = Real.log 0.5 / 2 := by
  rw [Real.log_div (ne_of_gt (Real.sqrt_pos.mpr (by norm_num))) (by norm_num),
    Real.log_sqrt (by norm_num), log_half_eq]
  ring

theorem Lval_pos {P : ℝ} (hP0 : 0 < P) (hP1 : P < 1) : 0 < Lval P :=
  div_pos_of_neg_of_neg (Real.log_neg (by linarith) (by linarith)) log_half_neg

theorem Lval_lt_half {P : ℝ} (hP : P < 1 - Real.sqrt 2 / 2) : Lval P < 1 / 2 := by
  have h1 : Real.sqrt 2 / 2 < 1 - P := by linarith
  have h2 : Real.log (Real.sqrt 2 / 2) < Real.log (1 - P) :=
    Real.log_lt_log sqrt2_div_two_pos h1
  rw [log_sqrt2_div_two] at h2
  unfold Lval
  rw [div_lt_iff_of_neg log_half_neg]
  linarith

theorem half_le_Lval {P : ℝ} (hP : 1 - Real.sqrt 2 / 2 ≤ P) (hP1 : P < 1) :
    1 / 2 ≤ Lval P := by
  have h0 : 0 < 1 - P := by linarith
  have h1 : 1 - P ≤ Real.sqrt 2 / 2 := by linarith
  have h2 : Real.log (1 - P) ≤ Real.log (Real.sqrt 2 / 2) :=
    (Real.log_le_log_iff h0 sqrt2_div_two_pos).mpr h1
  rw [log_sqrt2_div_two] at h2
  unfold Lval
  rw [le_div_iff_of_neg log_half_neg]
  linarith

/-- On the domain M > 0, 0 < P < 1 - sqrt(2)/2 (equivalently L < 1/2) the
derivation succeeds: the chain of numpy operations stays inside the finite
reals and produces strictly positive parameters b and eta, with
K = (2 - 2L)/(2L) the genuinely positive root, K > 1 and L (K + 1) = 1. -/
theorem gompertzParams_some {M P : ℝ} (hM : 0 < M) (hP0 : 0 < P)
    (hP : P < 1 - Real.sqrt 2 / 2) :
    ∃ K : ℝ, 1 < K ∧ Lval P * (K + 1) = 1 ∧
      gompertzParams M P =
        some { b := 2 * Real.log K / M, eta := Real.log (1 - P) / (1 - K) } ∧
      0 < 2 * Real.log K / M ∧ 0 < Real.log (1 - P) / (1 - K) := by
  have hP1 : P < 1 := by linarith [sqrt2_div_two_pos]
  have h1P : 0 < 1 - P := by linarith [sqrt2_div_two_pos]
  have hL0 : 0 < Lval P := Lval_pos hP0 hP1
  have hLh : Lval P < 1 / 2 := Lval_lt_half hP
  set L := Lval P with hLdef
  have hK1 : 1 < (2 - 2 * L) / (2 * L) := by
    rw [one_lt_div (by linarith)]
    linarith
  refine ⟨(2 - 2 * L) / (2 * L), hK1, ?_, ?_, ?_, ?_⟩
  · field_simp
    ring
  · have e1 : npLog (1 - P) = some (Real.log (1 - P)) := npLog_of_pos h1P
    have e2 : npLog 0.5 = some (Real.log 0.5) := npLog_of_pos (by norm_num)
    have e3 : npDiv (Real.log (1 - P)) (Real.log 0.5) = some L :=
      npDiv_of_ne (ne_of_lt log_half_neg)
    have e4 : npSqrt (4 * L ^ 2 - 4 * L + 1) = some (1 - 2 * L) := by
      rw [show 4 * L ^ 2 - 4 * L + 1 = (1 - 2 * L) ^ 2 by ring,
        npSqrt_of_nonneg (sq_nonneg _), Real.sqrt_sq (by linarith)]
    have e5 : npDiv (1 + (1 - 2 * L)) (2 * L) = some ((2 - 2 * L) / (2 * L)) := by
      rw [npDiv_of_ne (ne_of_gt (by linarith))]
      congr 1
      ring
    have e6 : npLog ((2 - 2 * L) / (2 * L)) =
        some (Real.log ((2 - 2 * L) / (2 * L))) :=
      npLog_of_pos (by linarith)
    have e7 : npDiv (2 * Real.log ((2 - 2 * L) / (2 * L))) M =
        some (2 * Real.log ((2 - 2 * L) / (2 * L)) / M) :=
      npDiv_of_ne (ne_of_gt hM)
    have hexp : 2 * Real.log ((2 - 2 * L) / (2 * L)) / M * M / 2 =
        Real.log ((2 - 2 * L) / (2 * L)) := by
      field_simp
    have e8 : npDiv (Real.log (1 - P))
        (1 - Real.exp (2 * Real.log ((2 - 2 * L) / (2 * L)) / M * M / 2)) =
        some (Real.log (1 - P) / (1 - (2 - 2 * L) / (2 * L))) := by
      rw [hexp, Real.exp_log (by linarith)]
      exact npDiv_of_ne (by intro h; rw [sub_eq_zero] at h; linarith [h ▸ hK1])
    simp only [gompertzParams, e1, Option.some_bind, e2, e3, e4, e5, e6, e7, e8]
  · have hlogK : 0 < Real.log ((2 - 2 * L) / (2 * L)) := Real.log_pos hK1
    positivity
  · apply div_pos_of_neg_of_neg
    · exact Real.log_neg h1P (by linarith)
    · linarith

/-- On the rest of the supposedly valid region - in fact for every P with
1 - sqrt(2)/2 <= P < 1 and every M - the positive-root formula collapses to
K = 1, so b = 0 and the eta computation divides by zero: the chain leaves
the finite reals. -/
theorem gompertzParams_none {M P : ℝ} (hP : 1 - Real.sqrt 2 / 2 ≤ P)
    (hP1 : P < 1) : gompertzParams M P = none := by
  have h0 : 0 < 1 - P := by linarith
  have hL : 1 / 2 ≤ Lval P := half_le_Lval hP hP1
  set L := Lval P with hLdef
  have e1 : npLog (1 - P) = some (Real.log (1 - P)) := npLog_of_pos h0
  have e2 : npLog 0.5 = some (Real.log 0.5) := npLog_of_pos (by norm_num)
  have e3 : npDiv (Real.log (1 - P)) (Real.log 0.5) = some L :=
    npDiv_of_ne (ne_of_lt log_half_neg)
  have e4 : npSqrt (4 * L ^ 2 - 4 * L + 1) = some (2 * L - 1) := by
    rw [show 4 * L ^ 2 - 4 * L + 1 = (2 * L - 1) ^ 2 by ring,
      npSqrt_of_nonneg (sq_nonneg _), Real.sqrt_sq (by linarith)]
  have e5 : npDiv (1 + (2 * L - 1)) (2 * L) = some 1 := by
    rw [npDiv_of_ne (ne_of_gt (by linarith))]
    congr 1
    field_simp
  have e6 : npLog (1 : ℝ) = some 0 := by
    rw [npLog_of_pos one_pos, Real.log_one]
  by_cases hM : M = 0
  · have e7 : npDiv (2 * (0:ℝ)) M = none := by
      rw [hM]
      exact npDiv_by_zero _
    simp only [gompertzParams, e1, Option.some_bind, e2, e3, e4, e5, e6, e7,
      Option.none_bind]
  · have e7 : npDiv (2 * (0:ℝ)) M = some 0 := by
      rw [npDiv_of_ne hM]
      norm_num
    have e8 : npDiv (Real.log (1 - P)) (1 - Real.exp ((0:ℝ) * M / 2)) = none := by
      rw [show (0:ℝ) * M / 2 = 0 by ring, Real.exp_zero, sub_self]
      exact npDiv_by_zero _
    simp only [gompertzParams, e1, Option.some_bind, e2, e3, e4, e5, e6, e7, e8,
      Option.none_bind]

/-- Concrete failure point inside the spec's claimed-valid parameter region:
at (M, P) = (1, 2/5) the derivation divides by zero in eta. -/
theorem gompertzParams_none_at_2_5 : gompertzParams 1 (2 / 5) = none := by
  have h : (6 / 5 : ℝ) ≤ Real.sqrt 2 :=
    (Real.le_sqrt (by norm_num) (by norm_num)).mpr (by norm_num)
  exact gompertzParams_none (by linarith) (by norm_num)

end misc

/-- C4: the conditional hazard computation in misc.py has no boundary guard:
it always evaluates the bare quotient (CDF(day2) - CDF(day1)) / (1 - CDF(day1)).
Over the exact reals CDF(day1) < 1 always holds, so the claimed branch
"return exactly 1 when CDF(day1) >= 1" is unreachable in real arithmetic and
absent from the code; in float arithmetic CDF(day1) does round to exactly 1.0
at large stages and the code then divides 0.0 by 0.0, yielding NaN rather
than the claimed 1. -/
theorem probEventInInterval_is_bare_quotient (g : GompertzParams) (day1 day2 : ℝ) :
    misc.CDFGompertz g day1 < 1 ∧
    misc.ProbDieBeforeT2GivenSurviveUntilTime1 day1 day2 g =
      some ((misc.CDFGompertz g day2 - misc.CDFGompertz g day1) /
        (1 - misc.CDFGompertz g day1)) :=
  ⟨misc.CDFGompertz_lt_one g day1,
    npDiv_of_ne (misc.one_sub_CDFGompertz_ne_zero g day1)⟩

namespace gompertz

/-- gompertz.py's gompertzParams never produces a value: every call reaches
the float bitwise-xor (a TypeError) unless a log already failed first. -/
theorem gompertzParams_eq_none (M P : ℝ) : gompertzParams M P = none := by
  by_cases h : (0:ℝ) < 1 - P
  · simp only [gompertzParams, npLog_of_pos h, Option.some_bind,
      npLog_of_pos (show (0:ℝ) < 0.5 by norm_num),
      npDiv_of_ne (ne_of_lt misc.log_half_neg), floatXor, Option.none_bind]
  · simp only [gompertzParams, npLog_of_nonpos h, Option.none_bind]

end gompertz

/-- C10: the two gompertzParams definitions are not equivalent.  gompertz.py
writes the discriminant as 4.0*L^2 - 4.0*L + 1.0, which Python parses as the
bitwise-xor (4.0*L) ^ (3.0 - 4.0*L) (caret is xor and binds more loosely than
* and -); xor of floats raises TypeError, so gompertz.py's version yields no
value on any input, while misc.py's version (the one simpleCancerSim.py
imports) returns a well-defined positive parameter pair, e.g. at
(M, P) = (1, 1/5). -/
theorem gompertz_py_duplicate_diverges_from_misc :
    gompertz.gompertzParams 1 (1 / 5) = none ∧
    ∃ g : GompertzParams, misc.gompertzParams 1 (1 / 5) = some g ∧
      0 < g.b ∧ 0 < g.eta := by
  constructor
  · exact gompertz.gompertzParams_eq_none 1 (1 / 5)
  · have h : Real.sqrt 2 < 8 / 5 := by
      rw [Real.sqrt_lt' (by norm_num)]
      norm_num
    obtain ⟨K, -, -, heq, hb, he⟩ :=
      misc.gompertzParams_some (M := 1) (P := 1 / 5) (by norm_num) (by norm_num)
        (by linarith)
    exact ⟨_, heq, hb, he⟩

/-- C3 counterexample: (M, P) = (1, 2/5) lies inside the claimed
success region M > 0, 0 < P < 0.5, yet the derivation does not succeed
there: the K-root formula collapses to K = 1 and the eta computation
divides by zero (in floats: a RuntimeWarning and a non-finite eta inside a
normally returned dictionary - no invalid-parameter failure either). -/
theorem gompertzParams_claimed_domain_counterexample :
    (0:ℝ) < 1 ∧ (0:ℝ) < 2 / 5 ∧ (2 / 5 : ℝ) < 1 / 2 ∧
    misc.gompertzParams 1 (2 / 5) = none :=
  ⟨by norm_num, by norm_num, by norm_num, misc.gompertzParams_none_at_2_5⟩

/-- C3 amended: gompertzParams performs no validation and fails fast on
nothing; the region on which it actually produces a (positive) parameter
pair is M > 0, 0 < P < 1 - sqrt(2)/2, while for every P in
[1 - sqrt(2)/2, 1) - which includes [0.2929..., 0.5), part of the claimed
valid region - the computation leaves the finite reals (division by zero in
eta) instead of returning parameters. -/
theorem gompertzParams_domain_correct :
    (∀ M P : ℝ, 0 < M → 0 < P → P < 1 - Real.sqrt 2 / 2 →
      ∃ g : GompertzParams, misc.gompertzParams M P = some g ∧
        0 < g.b ∧ 0 < g.eta) ∧
    (∀ M P : ℝ, 1 - Real.sqrt 2 / 2 ≤ P → P < 1 →
      misc.gompertzParams M P = none) := by
  constructor
  · intro M P hM hP0 hP
    obtain ⟨K, -, -, heq, hb, he⟩ := misc.gompertzParams_some hM hP0 hP
    exact ⟨_, heq, hb, he⟩
  · intro M P h1 h2
    exact misc.gompertzParams_none h1 h2

theorem gompertzParams_domain_correct_witness :
    (∃ g : GompertzParams, misc.gompertzParams 1 (1 / 5) = some g ∧
      0 < g.b ∧ 0 < g.eta) ∧
    misc.gompertzParams 1 (9 / 20) = none := by
  have h : Real.sqrt 2 < 8 / 5 := by
    rw [Real.sqrt_lt' (by norm_num)]
    norm_num
  have h2 : (11 / 10 : ℝ) ≤ Real.sqrt 2 :=
    (Real.le_sqrt (by norm_num) (by norm_num)).mpr (by norm_num)
  exact ⟨gompertzParams_domain_correct.1 1 (1 / 5) (by norm_num) (by norm_num)
      (by linarith),
    gompertzParams_domain_correct.2 1 (9 / 20) (by linarith) (by norm_num)⟩

/-- C7 counterexample: at (M, P) = (1, 2/5), which satisfies M > 0 and
0 < P < 0.5, no parameter pair is derived at all (the eta computation
divides by zero), so the claimed calibration round-trip fails there. -/
theorem calibration_roundtrip_counterexample :
    (0:ℝ) < 1 ∧ (0:ℝ) < 2 / 5 ∧ (2 / 5 : ℝ) < 1 / 2 ∧
    ¬ ∃ g : GompertzParams, misc.gompertzParams 1 (2 / 5) = some g ∧
        misc.CDFGompertz g 1 = 1 / 2 ∧ misc.CDFGompertz g (1 / 2) = 2 / 5 := by
  refine ⟨by norm_num, by norm_num, by norm_num, ?_⟩
  rintro ⟨g, hg, -, -⟩
  rw [misc.gompertzParams_none_at_2_5] at hg
  exact Option.noConfusion hg

/-- C7 amended: on the domain where the derivation actually succeeds
(M > 0, 0 < P < 1 - sqrt(2)/2) the calibration round-trip holds exactly over
the reals: CDF(params, M) = 1/2 and CDF(params, M/2) = P. -/
theorem calibration_roundtrip_exact {M P : ℝ} (hM : 0 < M) (hP0 : 0 < P)
    (hP : P < 1 - Real.sqrt 2 / 2) :
    ∃ g : GompertzParams, misc.gompertzParams M P = some g ∧
      misc.CDFGompertz g M = 1 / 2 ∧ misc.CDFGompertz g (M / 2) = P := by
  obtain ⟨K, hK1, hLK, heq, -, -⟩ := misc.gompertzParams_some hM hP0 hP
  have hP1 : P < 1 := by linarith [misc.sqrt2_div_two_pos]
  have h1P : 0 < 1 - P := by linarith [misc.sqrt2_div_two_pos]
  have hK0 : (0:ℝ) < K := by linarith
  have h1Kne : 1 - K ≠ 0 := by
    intro h
    rw [sub_eq_zero] at h
    exact absurd (h ▸ hK1) (lt_irrefl K)
  have hMne : M ≠ 0 := ne_of_gt hM
  have hlh : Real.log 0.5 ≠ 0 := ne_of_lt misc.log_half_neg
  have key : Real.log (1 - P) * (K + 1) = Real.log 0.5 := by
    have h := hLK
    unfold misc.Lval at h
    rw [div_mul_eq_mul_div, div_eq_one_iff_eq hlh] at h
    exact h
  refine ⟨_, heq, ?_, ?_⟩
  · have hbM : 2 * Real.log K / M * M = 2 * Real.log K := by
      field_simp
    have hexpK : Real.exp (2 * Real.log K) = K ^ 2 := by
      rw [show 2 * Real.log K = Real.log K + Real.log K by ring, Real.exp_add,
        Real.exp_log hK0]
      ring
    have hinner : -(Real.log (1 - P) / (1 - K)) * (K ^ 2 - 1) = Real.log 0.5 := by
      rw [← key]
      field_simp
      ring
    show 1 - Real.exp (-(Real.log (1 - P) / (1 - K)) *
        (Real.exp (2 * Real.log K / M * M) - 1)) = 1 / 2
    rw [hbM, hexpK, hinner, Real.exp_log (by norm_num : (0:ℝ) < 0.5)]
    norm_num
  · have hbM2 : 2 * Real.log K / M * (M / 2) = Real.log K := by
      field_simp
    have hinner2 : -(Real.log (1 - P) / (1 - K)) * (K - 1) = Real.log (1 - P) := by
      field_simp
      ring
    show 1 - Real.exp (-(Real.log (1 - P) / (1 - K)) *
        (Real.exp (2 * Real.log K / M * (M / 2)) - 1)) = P
    rw [hbM2, Real.exp_log hK0, hinner2, Real.exp_log h1P]
    ring

theorem calibration_roundtrip_exact_witness :
    ∃ g : GompertzParams, misc.gompertzParams 1 (1 / 5) = some g ∧
      misc.CDFGompertz g 1 = 1 / 2 ∧ misc.CDFGompertz g (1 / 2) = 1 / 5 := by
  have h : Real.sqrt 2 < 8 / 5 := by
    rw [Real.sqrt_lt' (by norm_num)]
    norm_num
  have h2 := calibration_roundtrip_exact (M := 1) (P := 1 / 5) (by norm_num)
    (by norm_num) (by linarith)
  simpa using h2

namespace simpleCancerSim

namespace ApptSchedule

theorem getNextApptSlot_case_reset_exhaust {C today : ℤ} (s : ApptSchedule)
    (hR : today > s.nextApptDay) (hz : C - 1 = 0) :
    s.getNextApptSlot C today = (today, ⟨today + 1, C⟩) := by
  unfold getNextApptSlot decrementSlotsAvailableNextApptDay resetNextApptDayToDay
  rw [if_pos hR]
  simp [hz]

theorem getNextApptSlot_case_reset_spare {C today : ℤ} (s : ApptSchedule)
    (hR : today > s.nextApptDay) (hz : C - 1 ≠ 0) :
    s.getNextApptSlot C today = (today, ⟨today, C - 1⟩) := by
  unfold getNextApptSlot decrementSlotsAvailableNextApptDay resetNextApptDayToDay
  rw [if_pos hR]
  simp [hz]

theorem getNextApptSlot_case_stay_exhaust {C today : ℤ} (s : ApptSchedule)
    (hR : ¬ today > s.nextApptDay) (hz : s.apptsRemainingNextApptDay - 1 = 0) :
    s.getNextApptSlot C today = (s.nextApptDay, ⟨s.nextApptDay + 1, C⟩) := by
  unfold getNextApptSlot decrementSlotsAvailableNextApptDay resetNextApptDayToDay
  rw [if_neg hR]
  simp [hz]

theorem getNextApptSlot_case_stay_spare {C today : ℤ} (s : ApptSchedule)
    (hR : ¬ today > s.nextApptDay) (hz : s.apptsRemainingNextApptDay - 1 ≠ 0) :
    s.getNextApptSlot C today =
      (s.nextApptDay, ⟨s.nextApptDay, s.apptsRemainingNextApptDay - 1⟩) := by
  unfold getNextApptSlot decrementSlotsAvailableNextApptDay resetNextApptDayToDay
  rw [if_neg hR]
  simp [hz]

/-- The assigned day is at least today, at least the pending nextApptDay, and
at most the new nextApptDay. -/
theorem getNextApptSlot_spec (C : ℤ) (s : ApptSchedule) (today : ℤ) :
    today ≤ (s.getNextApptSlot C today).1 ∧
    s.nextApptDay ≤ (s.getNextApptSlot C today).1 ∧
    (s.getNextApptSlot C today).1 ≤ (s.getNextApptSlot C today).2.nextApptDay := by
  by_cases hR : today > s.nextApptDay
  · by_cases hz : C - 1 = 0
    · rw [getNextApptSlot_case_reset_exhaust s hR hz]
      dsimp
      omega
    · rw [getNextApptSlot_case_reset_spare s hR hz]
      dsimp
      omega
  · by_cases hz : s.apptsRemainingNextApptDay - 1 = 0
    · rw [getNextApptSlot_case_stay_exhaust s hR hz]
      dsimp
      omega
    · rw [getNextApptSlot_case_stay_spare s hR hz]
      dsimp
      omega

/-- Slot-count invariant preservation for one allocation. -/
theorem getNextApptSlot_rem_spec (C : ℤ) (s : ApptSchedule) (today : ℤ)
    (h1 : 1 ≤ s.apptsRemainingNextApptDay)
    (h2 : s.apptsRemainingNextApptDay ≤ C) :
    1 ≤ (s.getNextApptSlot C today).2.apptsRemainingNextApptDay ∧
    (s.getNextApptSlot C today).2.apptsRemainingNextApptDay ≤ C := by
  by_cases hR : today > s.nextApptDay
  · by_cases hz : C - 1 = 0
    · rw [getNextApptSlot_case_reset_exhaust s hR hz]
      dsimp
      omega
    · rw [getNextApptSlot_case_reset_spare s hR hz]
      dsimp
      omega
  · by_cases hz : s.apptsRemainingNextApptDay - 1 = 0
    · rw [getNextApptSlot_case_stay_exhaust s hR hz]
      dsimp
      omega
    · rw [getNextApptSlot_case_stay_spare s hR hz]
      dsimp
      omega

theorem runSchedule_nil (C : ℤ) (s : ApptSchedule) :
    s.runSchedule C [] = ([], s) := rfl

theorem runSchedule_cons (C : ℤ) (s : ApptSchedule) (today : ℤ) (rest : List ℤ) :
    s.runSchedule C (today :: rest) =
      ((s.getNextApptSlot C today).1 ::
          ((s.getNextApptSlot C today).2.runSchedule C rest).1,
        ((s.getNextApptSlot C today).2.runSchedule C rest).2) := rfl

theorem runStates_nil (C : ℤ) (s : ApptSchedule) :
    s.runStates C [] = [] := rfl

theorem runStates_cons (C : ℤ) (s : ApptSchedule) (today : ℤ) (rest : List ℤ) :
    s.runStates C (today :: rest) =
      (s.getNextApptSlot C today).2 ::
        (s.getNextApptSlot C today).2.runStates C rest := rfl

theorem runSchedule_append (C : ℤ) (ts1 ts2 : List ℤ) :
    ∀ s : ApptSchedule,
      s.runSchedule C (ts1 ++ ts2) =
        ((s.runSchedule C ts1).1 ++ ((s.runSchedule C ts1).2.runSchedule C ts2).1,
          ((s.runSchedule C ts1).2.runSchedule C ts2).2) := by
  induction ts1 with
  | nil => intro s; simp [runSchedule_nil]
  | cons t rest ih =>
    intro s
    simp [runSchedule_cons, ih]

/-- Every assigned day of a run is at least the starting nextApptDay. -/
theorem runSchedule_out_ge_next (C : ℤ) :
    ∀ (ts : List ℤ) (s : ApptSchedule) (x : ℤ),
      x ∈ (s.runSchedule C ts).1 → s.nextApptDay ≤ x := by
  intro ts
  induction ts with
  | nil => intro s x hx; simp [runSchedule_nil] at hx
  | cons t rest ih =>
    intro s x hx
    rw [runSchedule_cons] at hx
    obtain ⟨h1, h2, h3⟩ := getNextApptSlot_spec C s t
    rcases List.mem_cons.mp hx with h | h
    · omega
    · have := ih (s.getNextApptSlot C t).2 x h
      omega

/-- Assigned days are non-decreasing across any sequence of calls. -/
theorem runSchedule_chain (C : ℤ) :
    ∀ (ts : List ℤ) (s : ApptSchedule),
      ((s.runSchedule C ts).1).Chain' (· ≤ ·) := by
  intro ts
  induction ts with
  | nil => intro s; simp [runSchedule_nil]
  | cons t rest ih =>
    intro s
    rw [runSchedule_cons]
    rw [List.chain'_cons']
    refine ⟨?_, ih _⟩
    intro b hb
    have hmem : b ∈ ((s.getNextApptSlot C t).2.runSchedule C rest).1 :=
      List.mem_of_mem_head? hb
    have h1 := runSchedule_out_ge_next C rest (s.getNextApptSlot C t).2 b hmem
    obtain ⟨-, -, h3⟩ := getNextApptSlot_spec C s t
    omega

/-- Each assigned day is at least the corresponding today argument. -/
theorem runSchedule_ge_today (C : ℤ) :
    ∀ (ts : List ℤ) (s : ApptSchedule),
      List.Forall₂ (fun t a => t ≤ a) ts ((s.runSchedule C ts).1) := by
  intro ts
  induction ts with
  | nil => intro s; simp [runSchedule_nil]
  | cons t rest ih =>
    intro s
    rw [runSchedule_cons]
    exact List.Forall₂.cons (getNextApptSlot_spec C s t).1 (ih _)

/-- Capacity bound: starting from a state whose pending slot count lies in
[1, C], a day d is assigned at most C times in total: at most the pending
count while d is the current nextApptDay, never again once nextApptDay has
moved past d, and at most C times if it is still ahead. -/
theorem runSchedule_count_bound (C : ℤ) :
    ∀ (ts : List ℤ) (s : ApptSchedule) (d : ℤ),
      1 ≤ s.apptsRemainingNextApptDay → s.apptsRemainingNextApptDay ≤ C →
      ((((s.runSchedule C ts).1).count d : ℤ) ≤
        if s.nextApptDay < d then C
        else if d = s.nextApptDay then s.apptsRemainingNextApptDay
        else 0) := by
  intro ts
  induction ts with
  | nil =>
    intro s d h1 h2
    rw [runSchedule_nil]
    simp only [List.count_nil, Nat.cast_zero]
    split_ifs <;> omega
  | cons t rest ih =>
    intro s d h1 h2
    rw [runSchedule_cons]
    by_cases hR : t > s.nextApptDay
    · by_cases hz : C - 1 = 0
      · rw [getNextApptSlot_case_reset_exhaust s hR hz]
        have hrec := ih ⟨t + 1, C⟩ d (show (1:ℤ) ≤ C by omega)
          (show C ≤ C by omega)
        dsimp at hrec ⊢
        rw [List.count_cons]
        push_cast
        simp only [beq_iff_eq]
        split_ifs at hrec ⊢ <;> omega
      · rw [getNextApptSlot_case_reset_spare s hR hz]
        have hrec := ih ⟨t, C - 1⟩ d (show (1:ℤ) ≤ C - 1 by omega)
          (show C - 1 ≤ C by omega)
        dsimp at hrec ⊢
        rw [List.count_cons]
        push_cast
        simp only [beq_iff_eq]
        split_ifs at hrec ⊢ <;> omega
    · by_cases hz : s.apptsRemainingNextApptDay - 1 = 0
      · rw [getNextApptSlot_case_stay_exhaust s hR hz]
        have hrec := ih ⟨s.nextApptDay + 1, C⟩ d (show (1:ℤ) ≤ C by omega)
          (show C ≤ C by omega)
        dsimp at hrec ⊢
        rw [List.count_cons]
        push_cast
        simp only [beq_iff_eq]
        split_ifs at hrec ⊢ <;> omega
      · rw [getNextApptSlot_case_stay_spare s hR hz]
        have hrec := ih ⟨s.nextApptDay, s.apptsRemainingNextApptDay - 1⟩ d
          (show (1:ℤ) ≤ s.apptsRemainingNextApptDay - 1 by omega)
          (show s.apptsRemainingNextApptDay - 1 ≤ C by omega)
        dsimp at hrec ⊢
        rw [List.count_cons]
        push_cast
        simp only [beq_iff_eq]
        split_ifs at hrec ⊢ <;> omega

/-- A block of r consecutive allocations exhausting the pending day d of an
otherwise idle schedule (today at most d, r slots pending with r at most C):
all r calls are assigned d and the schedule then points at d+1 with full
capacity. -/
theorem runSchedule_block (C : ℤ) :
    ∀ (n : ℕ) (r d today : ℤ), today ≤ d → r = (n : ℤ) → 1 ≤ r → r ≤ C →
      (⟨d, r⟩ : ApptSchedule).runSchedule C (List.replicate n today) =
        (List.replicate n d, (⟨d + 1, C⟩ : ApptSchedule)) := by
  intro n
  induction n with
  | zero => intro r d today _ hr h1 _; omega
  | succ k ih =>
    intro r d today ht hr h1 hC
    rw [List.replicate_succ, runSchedule_cons]
    have hR : ¬ today > (⟨d, r⟩ : ApptSchedule).nextApptDay := by dsimp; omega
    by_cases hz : (⟨d, r⟩ : ApptSchedule).apptsRemainingNextApptDay - 1 = 0
    · have hk : k = 0 := by dsimp at hz; omega
      subst hk
      rw [getNextApptSlot_case_stay_exhaust _ hR hz]
      dsimp
      rw [runSchedule_nil]
    · rw [getNextApptSlot_case_stay_spare _ hR hz]
      dsimp at hz ⊢
      rw [ih (r - 1) d today ht (by omega) (by omega) (by omega)]
      rw [List.replicate_succ]

/-- State invariant along any run: slot counts stay in [1, C] after every
allocation and nextApptDay never decreases. -/
theorem runStates_inv (C : ℤ) :
    ∀ (ts : List ℤ) (s : ApptSchedule),
      1 ≤ s.apptsRemainingNextApptDay → s.apptsRemainingNextApptDay ≤ C →
      (∀ t ∈ s.runStates C ts,
        1 ≤ t.apptsRemainingNextApptDay ∧ t.apptsRemainingNextApptDay ≤ C) ∧
      (s :: s.runStates C ts).Chain' (fun a b => a.nextApptDay ≤ b.nextApptDay) := by
  intro ts
  induction ts with
  | nil =>
    intro s h1 h2
    constructor
    · intro t ht
      rw [runStates_nil] at ht
      exact absurd ht (List.not_mem_nil t)
    · rw [runStates_nil]
      exact List.chain'_singleton s
  | cons t rest ih =>
    intro s h1 h2
    rw [runStates_cons]
    have hrem := getNextApptSlot_rem_spec C s t h1 h2
    have hspec := getNextApptSlot_spec C s t
    have hih := ih (s.getNextApptSlot C t).2 hrem.1 hrem.2
    constructor
    · intro x hx
      rcases List.mem_cons.mp hx with h | h
      · rw [h]
        exact hrem
      · exact hih.1 x h
    · rw [List.chain'_cons]
      refine ⟨?_, hih.2⟩
      obtain ⟨-, hb, hc⟩ := hspec
      omega

/-- C5: from a fresh schedule, any sequence of getNextApptSlot calls with
capacity C > 0 and non-decreasing today arguments assigns each caller a day
at least its today argument, assigns days non-decreasingly, assigns no day
more than C times, and on an otherwise idle schedule whose next appointment
day is d, C consecutive allocations all return d after which the next
allocation returns d + 1. -/
theorem scheduler_fifo_capacity (SLOTS_PER_DAY : ℤ) (hC : 0 < SLOTS_PER_DAY)
    (todays : List ℤ) (_hmono : todays.Chain' (· ≤ ·)) :
    List.Forall₂ (fun t a => t ≤ a) todays
      (((ApptSchedule.init SLOTS_PER_DAY).runSchedule SLOTS_PER_DAY todays).1) ∧
    (((ApptSchedule.init SLOTS_PER_DAY).runSchedule SLOTS_PER_DAY todays).1).Chain'
      (· ≤ ·) ∧
    (∀ d : ℤ,
      ((((ApptSchedule.init SLOTS_PER_DAY).runSchedule SLOTS_PER_DAY todays).1).count d : ℤ)
        ≤ SLOTS_PER_DAY) ∧
    (∀ d today : ℤ, today ≤ d →
      ((⟨d, SLOTS_PER_DAY⟩ : ApptSchedule).runSchedule SLOTS_PER_DAY
          (List.replicate (SLOTS_PER_DAY.toNat + 1) today)).1 =
        List.replicate SLOTS_PER_DAY.toNat d ++ [d + 1]) := by
  refine ⟨runSchedule_ge_today _ _ _, runSchedule_chain _ _ _, ?_, ?_⟩
  · intro d
    have h := runSchedule_count_bound SLOTS_PER_DAY todays
      (ApptSchedule.init SLOTS_PER_DAY) d
      (show (1:ℤ) ≤ SLOTS_PER_DAY by omega)
      (show SLOTS_PER_DAY ≤ SLOTS_PER_DAY by omega)
    dsimp only [ApptSchedule.init] at h ⊢
    split_ifs at h <;> omega
  · intro d today ht
    have hsplit : List.replicate (SLOTS_PER_DAY.toNat + 1) today =
        List.replicate SLOTS_PER_DAY.toNat today ++ [today] :=
      List.replicate_succ' SLOTS_PER_DAY.toNat today
    rw [hsplit, runSchedule_append,
      runSchedule_block SLOTS_PER_DAY SLOTS_PER_DAY.toNat SLOTS_PER_DAY d today
        ht (by omega) (by omega) (le_refl _)]
    dsimp
    congr 1
    have hR : ¬ today > (⟨d + 1, SLOTS_PER_DAY⟩ : ApptSchedule).nextApptDay := by
      dsimp
      omega
    rw [runSchedule_cons]
    by_cases hz :
        (⟨d + 1, SLOTS_PER_DAY⟩ : ApptSchedule).apptsRemainingNextApptDay - 1 = 0
    · rw [getNextApptSlot_case_stay_exhaust _ hR hz, runSchedule_nil]
    · rw [getNextApptSlot_case_stay_spare _ hR hz, runSchedule_nil]

theorem scheduler_fifo_capacity_witness :
    (0:ℤ) < 2 ∧ List.Chain' (· ≤ ·) ([1, 1, 2] : List ℤ) ∧
    (List.Forall₂ (fun t a => t ≤ a) ([1, 1, 2] : List ℤ)
        (((ApptSchedule.init 2).runSchedule 2 [1, 1, 2]).1) ∧
      (((ApptSchedule.init 2).runSchedule 2 [1, 1, 2]).1).Chain' (· ≤ ·) ∧
      (∀ d : ℤ,
        ((((ApptSchedule.init 2).runSchedule 2 [1, 1, 2]).1).count d : ℤ) ≤ 2) ∧
      (∀ d today : ℤ, today ≤ d →
        ((⟨d, 2⟩ : ApptSchedule).runSchedule 2
            (List.replicate ((2:ℤ).toNat + 1) today)).1 =
          List.replicate (2:ℤ).toNat d ++ [d + 1])) :=
  ⟨by norm_num, by norm_num [List.chain'_cons], scheduler_fifo_capacity 2
    (by norm_num) [1, 1, 2] (by norm_num [List.chain'_cons])⟩

/-- C6: for every state reached from a fresh schedule by any sequence of
allocations with capacity C > 0, immediately after each allocation the
remaining slot count lies in [1, C] (in particular it is always at least 1,
because the schedule advances the day and refills whenever the count would
reach zero) and nextApptDay is non-decreasing over the schedule's
lifetime. -/
theorem scheduler_invariant_after_allocation (SLOTS_PER_DAY : ℤ)
    (hC : 0 < SLOTS_PER_DAY) (todays : List ℤ) :
    (∀ s ∈ (ApptSchedule.init SLOTS_PER_DAY).runStates SLOTS_PER_DAY todays,
      1 ≤ s.apptsRemainingNextApptDay ∧
        s.apptsRemainingNextApptDay ≤ SLOTS_PER_DAY) ∧
    (ApptSchedule.init SLOTS_PER_DAY ::
        (ApptSchedule.init SLOTS_PER_DAY).runStates SLOTS_PER_DAY todays).Chain'
      (fun a b => a.nextApptDay ≤ b.nextApptDay) :=
  runStates_inv SLOTS_PER_DAY todays (ApptSchedule.init SLOTS_PER_DAY)
    (show (1:ℤ) ≤ SLOTS_PER_DAY by omega)
    (show SLOTS_PER_DAY ≤ SLOTS_PER_DAY by omega)

theorem scheduler_invariant_after_allocation_witness :
    (0:ℤ) < 2 ∧
    ((∀ s ∈ (ApptSchedule.init 2).runStates 2 [1, 1, 2, 2, 9],
      1 ≤ s.apptsRemainingNextApptDay ∧ s.apptsRemainingNextApptDay ≤ 2) ∧
    (ApptSchedule.init 2 ::
        (ApptSchedule.init 2).runStates 2 [1, 1, 2, 2, 9]).Chain'
      (fun a b => a.nextApptDay ≤ b.nextApptDay)) :=
  ⟨by norm_num, scheduler_invariant_after_allocation 2 (by norm_num) [1, 1, 2, 2, 9]⟩

end ApptSchedule

end simpleCancerSim

namespace simpleCancerSim

theorem pickRandomTF_eq_true_iff {p u : ℝ} : pickRandomTF p u = true ↔ u ≤ p := by
  unfold pickRandomTF
  split_ifs with h <;> simp [h]

/-- The noticing draw succeeds exactly when the uniform draw is at most the
conditional hazard over (stage-1, stage] of the noticing distribution (the
hazard denominator never vanishes over the reals). -/
theorem isNoticed_iff (s : Sufferer) (stage : ℤ) (u : ℝ) :
    s.isNoticed stage u = true ↔
      u ≤ (misc.CDFGompertz s.noticingParams (stage : ℝ) -
            misc.CDFGompertz s.noticingParams ((stage - 1 : ℤ) : ℝ)) /
          (1 - misc.CDFGompertz s.noticingParams ((stage - 1 : ℤ) : ℝ)) := by
  simp only [Sufferer.isNoticed, misc.ProbDieBeforeT2GivenSurviveUntilTime1,
    npDiv_of_ne
      (misc.one_sub_CDFGompertz_ne_zero s.noticingParams ((stage - 1 : ℤ) : ℝ))]
  exact pickRandomTF_eq_true_iff

/-- C1 (intended behaviour): with the hazard call bound to misc.py's
ProbDieBeforeT2GivenSurviveUntilTime1 (the source's call names a function
that does not exist, see Sufferer.isNoticed), a latent sufferer advanced on
day today draws a Bernoulli noticing outcome with probability equal to the
conditional hazard (CDF(stage) - CDF(stage-1)) / (1 - CDF(stage-1)) of its
noticing distribution at stage = today - startDay; on success it requests
the next slot for today, records it as the appointment day, and reports
wait = appointmentDay - today and stage + wait to the results collaborator;
on failure nothing changes. -/
theorem latent_noticing_step (SLOTS_PER_DAY : ℤ) (s : Sufferer) (today : ℤ)
    (u : ℝ) (sched : ApptSchedule) (res : ModelResults) (h : s.appt = none) :
    s.progressOneDay SLOTS_PER_DAY today u sched res =
      (if u ≤ (misc.CDFGompertz s.noticingParams ((s.cancerStage today : ℤ) : ℝ) -
              misc.CDFGompertz s.noticingParams ((s.cancerStage today - 1 : ℤ) : ℝ)) /
            (1 - misc.CDFGompertz s.noticingParams ((s.cancerStage today - 1 : ℤ) : ℝ))
       then
        ({ s with appt := some (sched.getNextApptSlot SLOTS_PER_DAY today).1 },
          (sched.getNextApptSlot SLOTS_PER_DAY today).2,
          res.addApptSet ((sched.getNextApptSlot SLOTS_PER_DAY today).1 - today)
            (s.cancerStage today +
              ((sched.getNextApptSlot SLOTS_PER_DAY today).1 - today)))
       else (s, sched, res)) := by
  simp only [Sufferer.progressOneDay, h]
  by_cases hn : s.isNoticed (s.cancerStage today) u = true
  · rw [if_pos hn, if_pos ((isNoticed_iff s (s.cancerStage today) u).mp hn)]
  · rw [if_neg hn,
      if_neg (fun hq => hn ((isNoticed_iff s (s.cancerStage today) u).mpr hq))]

theorem latent_noticing_step_witness :
    (⟨0, none, Status.STATUS_NOT_TREATED, ⟨0, 0⟩, ⟨0, 0⟩⟩ : Sufferer).appt = none ∧
    (⟨0, none, Status.STATUS_NOT_TREATED, ⟨0, 0⟩, ⟨0, 0⟩⟩ : Sufferer).progressOneDay
        2 1 2 (ApptSchedule.init 2) ModelResults.init =
      (⟨0, none, Status.STATUS_NOT_TREATED, ⟨0, 0⟩, ⟨0, 0⟩⟩, ApptSchedule.init 2,
        ModelResults.init) := by
  refine ⟨rfl, ?_⟩
  rw [latent_noticing_step 2 _ 1 2 (ApptSchedule.init 2) ModelResults.init rfl]
  have hc : ∀ x : ℝ, misc.CDFGompertz ⟨0, 0⟩ x = 0 := by
    intro x
    simp [misc.CDFGompertz]
  rw [if_neg]
  rw [hc, hc]
  norm_num

/-- C2 counterexample: a Sufferer already in the terminal state
STATUS_TREATMENT_SUCCEEDED, advanced again on a day past its appointment,
re-enters the treatment branch (progressOneDay never consults status),
re-draws the outcome and here flips to STATUS_TREATMENT_FAILED: a further
call is not a no-op and status does not stay fixed. -/
theorem terminal_not_noop_counterexample :
    (⟨0, some 5, Status.STATUS_TREATMENT_SUCCEEDED, ⟨0, 0⟩, ⟨0, 0⟩⟩ : Sufferer).status =
      Status.STATUS_TREATMENT_SUCCEEDED ∧
    ((⟨0, some 5, Status.STATUS_TREATMENT_SUCCEEDED, ⟨0, 0⟩,
        ⟨0, 0⟩⟩ : Sufferer).progressOneDay
        2 6 2 (ApptSchedule.init 2) ModelResults.init).1.status =
      Status.STATUS_TREATMENT_FAILED := by
  refine ⟨rfl, ?_⟩
  simp only [Sufferer.progressOneDay]
  rw [if_neg (by norm_num : ¬ (6:ℤ) < 5)]
  rw [if_neg]
  intro ht
  have h2 := pickRandomTF_eq_true_iff.mp ht
  simp only [misc.CDFGompertz] at h2
  norm_num at h2

/-- C2 amended: advancing a Sufferer whose appointment is set and whose
status is terminal leaves every field other than status unchanged, touches
neither the schedule nor the results, keeps the status terminal (it never
reverts to not-treated), and is a strict no-op while today < appointment
day; but on a day at or past the appointment the treatment branch re-runs
and re-draws the outcome, so the status may flip between the two terminal
values (the counterexample) - the claimed unconditional no-op holds only
because the Model removes treated sufferers the same day. -/
theorem terminal_step_preserves (SLOTS_PER_DAY : ℤ) (s : Sufferer) (today a : ℤ)
    (u : ℝ) (sched : ApptSchedule) (res : ModelResults)
    (h : s.appt = some a) (hst : s.status ≠ Status.STATUS_NOT_TREATED) :
    (s.progressOneDay SLOTS_PER_DAY today u sched res).2.1 = sched ∧
    (s.progressOneDay SLOTS_PER_DAY today u sched res).2.2 = res ∧
    (s.progressOneDay SLOTS_PER_DAY today u sched res).1.dayCancerStarted =
      s.dayCancerStarted ∧
    (s.progressOneDay SLOTS_PER_DAY today u sched res).1.appt = s.appt ∧
    (s.progressOneDay SLOTS_PER_DAY today u sched res).1.mortalityParams =
      s.mortalityParams ∧
    (s.progressOneDay SLOTS_PER_DAY today u sched res).1.noticingParams =
      s.noticingParams ∧
    (s.progressOneDay SLOTS_PER_DAY today u sched res).1.status ≠
      Status.STATUS_NOT_TREATED ∧
    (today < a → (s.progressOneDay SLOTS_PER_DAY today u sched res).1 = s) := by
  simp only [Sufferer.progressOneDay, h]
  by_cases hd : today < a
  · rw [if_pos hd]
    exact ⟨rfl, rfl, rfl, h.symm ▸ rfl, rfl, rfl, hst, fun _ => rfl⟩
  · rw [if_neg hd]
    by_cases ht : s.isTreatmentSuccessful (s.cancerStage today) u = true
    · rw [if_pos ht]
      exact ⟨rfl, rfl, rfl, h.symm ▸ rfl, rfl, rfl, by simp, fun hlt => absurd hlt hd⟩
    · rw [if_neg ht]
      exact ⟨rfl, rfl, rfl, h.symm ▸ rfl, rfl, rfl, by simp, fun hlt => absurd hlt hd⟩

theorem terminal_step_preserves_witness :
    ((⟨0, some 5, Status.STATUS_TREATMENT_SUCCEEDED, ⟨0, 0⟩,
        ⟨0, 0⟩⟩ : Sufferer).appt = some 5 ∧
      (⟨0, some 5, Status.STATUS_TREATMENT_SUCCEEDED, ⟨0, 0⟩,
        ⟨0, 0⟩⟩ : Sufferer).status ≠ Status.STATUS_NOT_TREATED) ∧
    ((⟨0, some 5, Status.STATUS_TREATMENT_SUCCEEDED, ⟨0, 0⟩,
        ⟨0, 0⟩⟩ : Sufferer).progressOneDay 2 3 0 (ApptSchedule.init 2)
        ModelResults.init).1 =
      ⟨0, some 5, Status.STATUS_TREATMENT_SUCCEEDED, ⟨0, 0⟩, ⟨0, 0⟩⟩ :=
  ⟨⟨rfl, by decide⟩,
    (terminal_step_preserves 2 _ 3 5 0 (ApptSchedule.init 2) ModelResults.init
      rfl (by decide)).2.2.2.2.2.2.2 (by norm_num)⟩

/-- C8: a Sufferer with its appointment set, advanced on a day at or past the
appointment day, performs a single one-shot Bernoulli draw with success
probability exactly 1 - CDF(mortalityParams, stage), stage = today -
startDay, and becomes treatment-succeeded exactly when the draw succeeds and
treatment-failed otherwise; the schedule and the results are untouched and no
hazard-interval computation is involved. -/
theorem treatment_day_step (SLOTS_PER_DAY : ℤ) (s : Sufferer) (today a : ℤ)
    (u : ℝ) (sched : ApptSchedule) (res : ModelResults)
    (h : s.appt = some a) (_hst : s.status = Status.STATUS_NOT_TREATED)
    (hd : a ≤ today) :
    s.progressOneDay SLOTS_PER_DAY today u sched res =
      ({ s with status :=
          if u ≤ 1 - misc.CDFGompertz s.mortalityParams ((s.cancerStage today : ℤ) : ℝ)
          then Status.STATUS_TREATMENT_SUCCEEDED
          else Status.STATUS_TREATMENT_FAILED }, sched, res) := by
  simp only [Sufferer.progressOneDay, h]
  rw [if_neg (by omega : ¬ today < a)]
  by_cases hu :
      u ≤ 1 - misc.CDFGompertz s.mortalityParams ((s.cancerStage today : ℤ) : ℝ)
  · rw [if_pos (show s.isTreatmentSuccessful (s.cancerStage today) u = true from
      pickRandomTF_eq_true_iff.mpr hu), if_pos hu]
  · rw [if_neg (show ¬ s.isTreatmentSuccessful (s.cancerStage today) u = true from
      fun hh => hu (pickRandomTF_eq_true_iff.mp hh)), if_neg hu]

theorem treatment_day_step_witness :
    ((⟨0, some 3, Status.STATUS_NOT_TREATED, ⟨0, 0⟩, ⟨0, 0⟩⟩ : Sufferer).appt =
        some 3 ∧
      (⟨0, some 3, Status.STATUS_NOT_TREATED, ⟨0, 0⟩, ⟨0, 0⟩⟩ : Sufferer).status =
        Status.STATUS_NOT_TREATED ∧ (3:ℤ) ≤ 5) ∧
    ((⟨0, some 3, Status.STATUS_NOT_TREATED, ⟨0, 0⟩,
        ⟨0, 0⟩⟩ : Sufferer).progressOneDay 2 5 0 (ApptSchedule.init 2)
        ModelResults.init).1.status = Status.STATUS_TREATMENT_SUCCEEDED := by
  refine ⟨⟨rfl, rfl, by norm_num⟩, ?_⟩
  rw [treatment_day_step 2 _ 5 3 0 (ApptSchedule.init 2) ModelResults.init rfl
    rfl (by norm_num)]
  simp only [misc.CDFGompertz]
  rw [if_pos]
  norm_num

end simpleCancerSim

theorem foldl_erase_cons_of_ne {α : Type} [DecidableEq α] :
    ∀ (ts : List α) (x : α) (l : List α), (∀ t ∈ ts, t ≠ x) →
      ts.foldl (fun acc y => acc.erase y) (x :: l) =
        x :: ts.foldl (fun acc y => acc.erase y) l := by
  intro ts
  induction ts with
  | nil => intro x l _; rfl
  | cons t ts ih =>
    intro x l h
    have hne : t ≠ x := h t (List.mem_cons_self t ts)
    rw [List.foldl_cons, List.foldl_cons,
      List.erase_cons_tail (by simpa using Ne.symm hne)]
    exact ih x (l.erase t) (fun t' ht' => h t' (List.mem_cons_of_mem t ht'))

/-- Erasing, one by one, exactly the elements of a list that satisfy p from
the list itself leaves the elements that do not satisfy p, in order: the
erase-collected-elements-afterwards idiom of the source equals a filter. -/
theorem foldl_erase_filter {α : Type} [DecidableEq α] :
    ∀ (l : List α) (p : α → Bool),
      (l.filter p).foldl (fun acc y => acc.erase y) l =
        l.filter (fun x => ! p x) := by
  intro l
  induction l with
  | nil => intro p; rfl
  | cons x xs ih =>
    intro p
    by_cases hx : p x = true
    · rw [List.filter_cons_of_pos hx, List.filter_cons_of_neg (by simp [hx]),
        List.foldl_cons, List.erase_cons_head, ih]
    · have hx' : p x = false := by simpa using hx
      rw [List.filter_cons_of_neg (by simp [hx']),
        List.filter_cons_of_pos (by simp [hx']),
        foldl_erase_cons_of_ne (xs.filter p) x xs ?hne, ih]
      case hne =>
        intro t ht heq
        have hpt := (List.mem_filter.mp ht).2
        rw [heq, hx'] at hpt
        exact Bool.false_ne_true hpt

namespace simpleCancerSim

theorem isStatusFailed_imp_hasBeenTreated (s : Sufferer) :
    s.isStatusFailed = true → s.hasBeenTreated = true := by
  unfold Sufferer.isStatusFailed Sufferer.hasBeenTreated
  cases hs : s.status <;> simp [hs]

/-- progressOneDay never touches the deaths or cured streams of the results
collaborator (only addApptSet is reachable from it). -/
theorem progressOneDay_deaths_cured (SLOTS_PER_DAY : ℤ) (s : Sufferer)
    (today : ℤ) (u : ℝ) (sched : ApptSchedule) (res : ModelResults) :
    (s.progressOneDay SLOTS_PER_DAY today u sched res).2.2.deaths = res.deaths ∧
    (s.progressOneDay SLOTS_PER_DAY today u sched res).2.2.cured = res.cured := by
  cases h : s.appt with
  | none =>
    simp only [Sufferer.progressOneDay, h]
    split_ifs <;> exact ⟨rfl, rfl⟩
  | some a =>
    simp only [Sufferer.progressOneDay, h]
    split_ifs <;> exact ⟨rfl, rfl⟩

/-- The day loop advances every listed sufferer exactly once (the advanced
list is index-for-index the advanced originals, in particular of the same
length), collects as sufferersTreated exactly the advanced sufferers whose
status is terminal, and reports exactly one death per failed and one cure
per succeeded treated sufferer, all tagged with the current day. -/
theorem progressLoop_spec (SLOTS_PER_DAY today : ℤ) :
    ∀ (l : List Sufferer) (us : ℕ → ℝ) (sched : ApptSchedule)
      (res : ModelResults),
      (progressLoop SLOTS_PER_DAY today l us sched res).1.length = l.length ∧
      (progressLoop SLOTS_PER_DAY today l us sched res).2.1 =
        (progressLoop SLOTS_PER_DAY today l us sched res).1.filter
          (fun x => x.hasBeenTreated) ∧
      (progressLoop SLOTS_PER_DAY today l us sched res).2.2.2.deaths =
        res.deaths ++
          ((progressLoop SLOTS_PER_DAY today l us sched res).1.filter
            (fun x => x.isStatusFailed)).map (fun _ => today) ∧
      (progressLoop SLOTS_PER_DAY today l us sched res).2.2.2.cured =
        res.cured ++
          ((progressLoop SLOTS_PER_DAY today l us sched res).1.filter
            (fun x => x.hasBeenTreated && ! x.isStatusFailed)).map
            (fun _ => today) := by
  intro l
  induction l with
  | nil =>
    intro us sched res
    exact ⟨rfl, rfl, by simp [progressLoop], by simp [progressLoop]⟩
  | cons suf rest ih =>
    intro us sched res
    obtain ⟨hd, hc⟩ :=
      progressOneDay_deaths_cured SLOTS_PER_DAY suf today (us 0) sched res
    simp only [progressLoop]
    generalize hq : suf.progressOneDay SLOTS_PER_DAY today (us 0) sched res = q
      at hd hc ⊢
    obtain ⟨s1, sched1, res1⟩ := q
    dsimp at hd hc ⊢
    cases hT : s1.hasBeenTreated with
    | false =>
      have hF : s1.isStatusFailed = false := by
        cases hF' : s1.isStatusFailed
        · rfl
        · rw [isStatusFailed_imp_hasBeenTreated s1 hF'] at hT
          exact absurd hT (by simp)
      obtain ⟨ih1, ih2, ih3, ih4⟩ := ih (fun i => us (i + 1)) sched1 res1
      simp [hT, hF, ih1, ih2, ih3, ih4, hd, hc]
    | true =>
      cases hF : s1.isStatusFailed with
      | false =>
        obtain ⟨ih1, ih2, ih3, ih4⟩ :=
          ih (fun i => us (i + 1)) sched1 (res1.addCure today)
        simp only [ModelResults.addCure, hd, hc] at ih1 ih2 ih3 ih4
        simp [hT, hF, ModelResults.addCure, hd, hc, ih1, ih2, ih3, ih4]
      | true =>
        obtain ⟨ih1, ih2, ih3, ih4⟩ :=
          ih (fun i => us (i + 1)) sched1 (res1.addDeath today)
        simp only [ModelResults.addDeath, hd, hc] at ih1 ih2 ih3 ih4
        simp [hT, hF, ModelResults.addDeath, hd, hc, ih1, ih2, ih3, ih4]

/-- C9 (intended behaviour): under the intended binding of the hazard call
documented at Sufferer.isNoticed - the source calls the undefined
gp.ProbEventBeforeT2GivenNoEventBeforeTime1, so on the code as written any
day whose live set holds a latent sufferer aborts mid-loop with
AttributeError and the behaviour claimed here never completes - the day step
increments the global day, advances every sufferer live at the start of the
day - those already live and those created the same day alike - exactly once
for the new day (the loop runs over the concatenated list and produces one
advanced sufferer per input), removes the treated sufferers only after the
whole loop via the erase idiom, which equals filtering them out and so does
not perturb the iteration, and reports exactly one death per failed and one
cure per succeeded treated sufferer with the current day. -/
theorem progressToNextDay_two_phase (SLOTS_PER_DAY : ℤ) (m : Model)
    (newSufferers : List Sufferer) (us : ℕ → ℝ) (res : ModelResults) :
    (m.progressToNextDay SLOTS_PER_DAY newSufferers us res).1.today =
      m.today + 1 ∧
    (progressLoop SLOTS_PER_DAY (m.today + 1) (m.sufferers ++ newSufferers) us
        m.apptSchedule res).1.length = (m.sufferers ++ newSufferers).length ∧
    (m.progressToNextDay SLOTS_PER_DAY newSufferers us res).1.sufferers =
      (progressLoop SLOTS_PER_DAY (m.today + 1) (m.sufferers ++ newSufferers) us
          m.apptSchedule res).1.filter (fun x => ! x.hasBeenTreated) ∧
    (m.progressToNextDay SLOTS_PER_DAY newSufferers us res).1.apptSchedule =
      (progressLoop SLOTS_PER_DAY (m.today + 1) (m.sufferers ++ newSufferers) us
          m.apptSchedule res).2.2.1 ∧
    (m.progressToNextDay SLOTS_PER_DAY newSufferers us res).2.deaths =
      res.deaths ++
        ((progressLoop SLOTS_PER_DAY (m.today + 1) (m.sufferers ++ newSufferers)
            us m.apptSchedule res).1.filter
          (fun x => x.isStatusFailed)).map (fun _ => m.today + 1) ∧
    (m.progressToNextDay SLOTS_PER_DAY newSufferers us res).2.cured =
      res.cured ++
        ((progressLoop SLOTS_PER_DAY (m.today + 1) (m.sufferers ++ newSufferers)
            us m.apptSchedule res).1.filter
          (fun x => x.hasBeenTreated && ! x.isStatusFailed)).map
          (fun _ => m.today + 1) := by
  obtain ⟨h1, h2, h3, h4⟩ := progressLoop_spec SLOTS_PER_DAY (m.today + 1)
    (m.sufferers ++ newSufferers) us m.apptSchedule res
  refine ⟨rfl, h1, ?_, rfl, h3, h4⟩
  show ((progressLoop SLOTS_PER_DAY (m.today + 1) (m.sufferers ++ newSufferers)
      us m.apptSchedule res).2.1).foldl (fun l suf => l.erase suf)
      (progressLoop SLOTS_PER_DAY (m.today + 1) (m.sufferers ++ newSufferers)
        us m.apptSchedule res).1 = _
  rw [h2, foldl_erase_filter]

end simpleCancerSim
